import Mathlib

/-!
Shallow embedding of `gradeReport/main.go` (GradeFlow): a batch tool that
reads a grade CSV and a teacher CSV, indexes teachers by
`subjectCode_year_class`, matches each grade row to a teacher, buckets the
matched rows per `ReportKey`, writes one sorted CSV report per bucket and an
`error.csv` for unmatched rows, and finally groups the written report files
by teacher email.

Pure functions of the Go source are translated directly; file and map
plumbing is made explicit: the Go `map` types become association lists with
overwrite-on-insert (`upsert`), the randomized iteration order of a Go map
becomes an explicit `order : List ReportKey` parameter where it matters, and
fallible file writes become a `fail : String → Bool` oracle.
`strings.TrimSpace` is modelled by `trimStr` (ASCII whitespace; exotic
Unicode spaces are out of scope), and `strconv.Atoi` by `atoi?` (sign plus
decimal digits; 64-bit overflow is not modelled).
-/

namespace GradeFlow

/-- Model of `strings.TrimSpace`: drop whitespace characters from both ends
of the string (written with structural recursion so that concrete instances
reduce inside the kernel). -/
def trimStr (s : String) : String :=
  ⟨((s.data.dropWhile Char.isWhitespace).reverse.dropWhile Char.isWhitespace).reverse⟩

/-- The Go `GradeRecord` struct: one full grade CSV row (`Row []string`). -/
structure GradeRecord where
  Row : List String
  deriving DecidableEq

/-- The Go method `(g *GradeRecord) getField(index int)`: the trimmed string
at a fixed index, or `""` when the row is shorter than the index. -/
def GradeRecord.getField (g : GradeRecord) (i : Nat) : String :=
  match g.Row.get? i with
  | some s => trimStr s
  | none => ""

/-- Accessor `SubjectCode()` (fixed index 0). -/
def GradeRecord.SubjectCode (g : GradeRecord) : String := g.getField 0

/-- Accessor `SubjectName()` (fixed index 1). -/
def GradeRecord.SubjectName (g : GradeRecord) : String := g.getField 1

/-- Accessor `StudentID()` (fixed index 2). -/
def GradeRecord.StudentID (g : GradeRecord) : String := g.getField 2

/-- Accessor `Year()` (fixed index 3, the grade level). -/
def GradeRecord.Year (g : GradeRecord) : String := g.getField 3

/-- Accessor `Class()` (fixed index 4). -/
def GradeRecord.Class (g : GradeRecord) : String := g.getField 4

/-- Accessor `SeatNumber()` (fixed index 5). -/
def GradeRecord.SeatNumber (g : GradeRecord) : String := g.getField 5

/-- Accessor `StudentName()` (fixed index 6). -/
def GradeRecord.StudentName (g : GradeRecord) : String := g.getField 6

/-- Accessor `Group()` (fixed index 7). -/
def GradeRecord.Group (g : GradeRecord) : String := g.getField 7

/-- Accessor `Score()` (fixed index 13). -/
def GradeRecord.Score (g : GradeRecord) : String := g.getField 13

/-- The Go `TeacherRecord` struct: exactly seven semantic string fields. -/
structure TeacherRecord where
  SubjectCode : String
  SubjectName : String
  Year : String
  Class : String
  Group : String
  TeacherName : String
  Email : String
  deriving DecidableEq

/-- The Go `ReportKey` struct: identity of one exported report. -/
structure ReportKey where
  TeacherName : String
  Year : String
  SubjectCode : String
  SubjectName : String
  deriving DecidableEq

/-- The padding step of `readGradeCSV`: a data row shorter than the header
is right-padded with `""` up to the header length (`make` + `copy` in Go);
other rows are kept unchanged. -/
def padRow (headers row : List String) : List String :=
  if row.length < headers.length then row ++ List.replicate (headers.length - row.length) "" else row

/-- `readGradeCSV`, modelled on the parsed CSV records (file I/O and the CSV
codec are boundary collaborators). Returns the header row (`csvHeaders`,
the first record) and the admitted `GradeRecord`s: data rows with at least
`FieldStudentName + 1 = 7` fields, shorter rows (including empty ones)
dropped, short admitted rows padded to the header length. -/
def readGradeCSV (records : List (List String)) : List String × List GradeRecord :=
  let headers := (records.head?).getD []
  (headers, (records.drop 1).filterMap (fun row =>
    if row.length < 7 then none else some ⟨padRow headers row⟩))

/-- The record-construction step of `readTeacherCSV`: the first seven cells,
trimmed, as a `TeacherRecord`. -/
def mkTeacher (r : List String) : TeacherRecord :=
  ⟨trimStr (r.getD 0 ""), trimStr (r.getD 1 ""), trimStr (r.getD 2 ""), trimStr (r.getD 3 ""),
   trimStr (r.getD 4 ""), trimStr (r.getD 5 ""), trimStr (r.getD 6 "")⟩

/-- `readTeacherCSV`, modelled on the parsed CSV records: skips the header
row, silently discards rows with fewer than 7 fields, trims every kept
field. -/
def readTeacherCSV (records : List (List String)) : List TeacherRecord :=
  (records.drop 1).filterMap (fun r => if r.length < 7 then none else some (mkTeacher r))

/-- Association-list insert with overwrite: the model of `m[k] = v` on a Go
map. -/
def upsert {κ β : Type} [DecidableEq κ] (k : κ) (v : β) : List (κ × β) → List (κ × β)
  | [] => [(k, v)]
  | (k', v') :: rest => if k' = k then (k, v) :: rest else (k', v') :: upsert k v rest

/-- Association-list lookup: the model of `v, ok := m[k]` on a Go map. -/
def lookupA {κ β : Type} [DecidableEq κ] (k : κ) : List (κ × β) → Option β
  | [] => none
  | (k', v) :: rest => if k' = k then some v else lookupA k rest

/-- The key `fmt.Sprintf("%s_%s_%s", SubjectCode, Year, Class)` built from a
teacher record in `buildTeacherMap` and `groupReportsByTeacher`; the `Group`
field is deliberately not part of the key. -/
def teacherKey (t : TeacherRecord) : String :=
  t.SubjectCode ++ "_" ++ t.Year ++ "_" ++ t.Class

/-- `buildTeacherMap`: one left-to-right pass inserting every teacher at its
`teacherKey`; a later duplicate key overwrites the earlier teacher. -/
def buildTeacherMap (teachers : List TeacherRecord) : List (String × TeacherRecord) :=
  teachers.foldl (fun m t => upsert (teacherKey t) t m) []

/-- The key `fmt.Sprintf("%s_%s_%s", SubjectCode(), Year(), Class())` built
from a grade row in `matchStudentsToTeachers` and `groupReportsByTeacher`;
the row's `Group()` field is ignored. -/
def gradeKey (g : GradeRecord) : String :=
  g.SubjectCode ++ "_" ++ g.Year ++ "_" ++ g.Class

/-- The `ReportKey` built on a successful match: the matched teacher's name
plus the grade row's own year, subject code and subject name. -/
def reportKeyOf (t : TeacherRecord) (g : GradeRecord) : ReportKey :=
  ⟨t.TeacherName, g.Year, g.SubjectCode, g.SubjectName⟩

/-- The Go `map[ReportKey][]GradeRecord`, as an association list. -/
abbrev ReportMap := List (ReportKey × List GradeRecord)

/-- The bucket stored for a key (`reportData[key]`; a missing key reads as
the empty slice, as in Go). -/
def bucketOf (rd : ReportMap) (k : ReportKey) : List GradeRecord :=
  (lookupA k rd).getD []

/-- The model of `m[k] = append(m[k], v)` on a Go map of slices. -/
def pushAt {α : Type} {κ : Type} [DecidableEq κ] (m : List (κ × List α)) (k : κ) (v : α) : List (κ × List α) :=
  upsert k ((lookupA k m).getD [] ++ [v]) m

/-- One iteration of the loop in `matchStudentsToTeachers`: look the grade
row's `gradeKey` up in the teacher map; on a miss append the row to
`errorRecords`, on a hit append it to the bucket of its `reportKeyOf`. -/
def matchStep (tmap : List (String × TeacherRecord)) (acc : ReportMap × List GradeRecord)
    (g : GradeRecord) : ReportMap × List GradeRecord :=
  match lookupA (gradeKey g) tmap with
  | none => (acc.1, acc.2 ++ [g])
  | some t => (pushAt acc.1 (reportKeyOf t g) g, acc.2)

/-- `matchStudentsToTeachers`: fold `matchStep` over the grade rows in input
order, starting from empty report data and no error records. -/
def matchStudentsToTeachers (grades : List GradeRecord)
    (tmap : List (String × TeacherRecord)) : ReportMap × List GradeRecord :=
  grades.foldl (matchStep tmap) ([], [])

/-- The rows written by `generateErrorCSV`: the shared CSV header followed
by the raw `Row` of every unmatched record, in order. -/
def generateErrorCSV (hdr : List String) (errs : List GradeRecord) : List (List String) :=
  hdr :: errs.map GradeRecord.Row

/-- The `len(errorRecords) > 0` guard in `main` around `generateErrorCSV`:
at most one auxiliary export, at the fixed path `output/error.csv`. -/
def errorExport (hdr : List String) (errs : List GradeRecord) : Option (String × List (List String)) :=
  if errs = [] then none else some ("output/error.csv", generateErrorCSV hdr errs)

/-- The report file path built in `generateCSVReports`:
`filepath.Join("output", fmt.Sprintf("%s_年級%s_%s.csv", TeacherName, Year, SubjectName))`.
Note that `SubjectCode` is not part of the name. -/
def fileName (k : ReportKey) : String :=
  "output/" ++ k.TeacherName ++ "_年級" ++ k.Year ++ "_" ++ k.SubjectName ++ ".csv"

/-- Digit run to a natural number, most significant first. -/
def digitsVal (ds : List Char) : Nat :=
  ds.foldl (fun n c => n * 10 + (c.toNat - 48)) 0

/-- Body of `atoi?` after the optional sign has been stripped. -/
def atoiCore (ds : List Char) (sign : Int) : Option Int :=
  if ds = [] then none
  else if ds.all Char.isDigit then some (sign * (digitsVal ds : Int)) else none

/-- Model of `strconv.Atoi`: optional `+`/`-` sign followed by at least one
decimal digit; anything else is a parse error (64-bit range overflow is not
modelled). -/
def atoi? (s : String) : Option Int :=
  match s.toList with
  | '+' :: rest => atoiCore rest 1
  | '-' :: rest => atoiCore rest (-1)
  | l => atoiCore l 1

/-- The `less` closure passed to `sort.Slice` in `createCSVReport`: compare
by class string first; for equal classes try `strconv.Atoi` on both seat
numbers and compare numerically when both parse, otherwise compare the seat
strings lexicographically. -/
def gradeLess (a b : GradeRecord) : Bool :=
  if a.Class ≠ b.Class then decide (a.Class < b.Class)
  else
    match atoi? a.SeatNumber, atoi? b.SeatNumber with
    | some x, some y => decide (x < y)
    | _, _ => decide (a.SeatNumber < b.SeatNumber)

/-- Non-strict form of the comparator: `a` may be placed before `b`. -/
def gradeLE (a b : GradeRecord) : Bool := !gradeLess b a

/-- Ordered insertion, generic in the Boolean comparator. -/
def insertSorted {α : Type} (le : α → α → Bool) (x : α) : List α → List α
  | [] => [x]
  | a :: l => if le x a then x :: a :: l else a :: insertSorted le x l

/-- Comparison sort, generic in the Boolean comparator. -/
def sortBy {α : Type} (le : α → α → Bool) : List α → List α
  | [] => []
  | a :: l => insertSorted le a (sortBy le l)

/-- Model of `sort.Slice(grades, less)` in `createCSVReport`: a comparison
sort driven by the exact Go `less` closure (Go's unstable sort only promises
an order consistent with `less`). -/
def sortGrades (gs : List GradeRecord) : List GradeRecord :=
  sortBy gradeLE gs

/-- The rows `createCSVReport` writes for one bucket: the shared CSV header,
then the full `Row` of every bucket record after sorting. -/
def reportContent (hdr : List String) (rd : ReportMap) (k : ReportKey) : List (List String) :=
  hdr :: (sortGrades (bucketOf rd k)).map GradeRecord.Row

/-- The `reportFiles` map returned by `generateCSVReports`: one
`(key, fileName key)` entry per bucket whose write succeeded; a failed write
is skipped (`continue`) and the loop goes on. `fail` is the oracle saying
which file writes error out. -/
def reportFilesOf (fail : String → Bool) (rd : ReportMap) : List (ReportKey × String) :=
  rd.filterMap (fun kv => if fail (fileName kv.1) then none else some (kv.1, fileName kv.1))

/-- The fatality test in `main`: `log.Fatal` fires iff
`len(reportFiles) == 0` after `generateCSVReports`. -/
def mainFatal (fail : String → Bool) (rd : ReportMap) : Bool :=
  (reportFilesOf fail rd).isEmpty

/-- The on-disk outcome of `generateCSVReports` when every write succeeds:
buckets are visited in the Go map's (arbitrary) iteration order, given here
as the explicit `order` list; each visit writes `reportContent` at
`fileName`, a later write to the same path overwriting an earlier one. -/
def writeReports (hdr : List String) (rd : ReportMap) (order : List ReportKey) :
    List (String × List (List String)) :=
  order.foldl (fun fs k => upsert (fileName k) (reportContent hdr rd k) fs) []

/-- The attribution step inside `groupReportsByTeacher` for one
`(key, filename)` pair: if the key's bucket is nonempty, take its first row,
rebuild the match key, and linearly scan the original teacher list for the
first teacher with that `teacherKey` (the Go loop `break`s on the first
hit); the result is that teacher's email paired with the file name. -/
def attrib (rd : ReportMap) (teachers : List TeacherRecord) (kf : ReportKey × String) :
    Option (String × String) :=
  match bucketOf rd kf.1 with
  | [] => none
  | g :: _ =>
    (teachers.find? (fun t => decide (teacherKey t = gradeKey g))).map (fun t => (t.Email, kf.2))

/-- One iteration of the `groupReportsByTeacher` loop: on a successful
attribution append the file name to that email's slice, otherwise leave the
accumulator unchanged. -/
def groupStep (rd : ReportMap) (teachers : List TeacherRecord)
    (acc : List (String × List String)) (kf : ReportKey × String) : List (String × List String) :=
  match attrib rd teachers kf with
  | none => acc
  | some (e, f) => pushAt acc e f

/-- `groupReportsByTeacher`: fold `groupStep` over the `(key, filename)`
pairs. (In `main` the buckets it receives have already been sorted in place
by `createCSVReport`; the theorems below quantify over arbitrary bucket
contents, which covers that.) -/
def groupReportsByTeacher (reportFiles : List (ReportKey × String)) (rd : ReportMap)
    (teachers : List TeacherRecord) : List (String × List String) :=
  reportFiles.foldl (groupStep rd teachers) []

/-- Files attributed to one email in the distribution plan. -/
def filesOf (plan : List (String × List String)) (e : String) : List String :=
  (lookupA e plan).getD []

/-- The teacher map's verdict on a grade row, as the report key it would be
bucketed under. -/
def matchedKey (tmap : List (String × TeacherRecord)) (g : GradeRecord) : Option ReportKey :=
  (lookupA (gradeKey g) tmap).map (fun t => reportKeyOf t g)

/-- The non-strict order the report sort realizes: class strings ascending,
ties broken by seat number — numerically when both seat numbers parse,
lexicographically otherwise. -/
def reportLE (a b : GradeRecord) : Prop :=
  a.Class < b.Class ∨ (a.Class = b.Class ∧
    match atoi? a.SeatNumber, atoi? b.SeatNumber with
    | some x, some y => x ≤ y
    | _, _ => a.SeatNumber ≤ b.SeatNumber)

/-- Numeric value of a seat number (0 when it does not parse). -/
def seatVal (g : GradeRecord) : Int :=
  (atoi? g.SeatNumber).getD 0

/- Concrete sample data used by the closed witnesses and counterexamples. -/

/-- Sample teacher: Lee teaches subject `M` to year 7 class 1. -/
def tW : TeacherRecord := ⟨"M", "Math", "7", "1", "", "Lee", "lee@x"⟩

/-- Teacher index over the single sample teacher. -/
def tmW : List (String × TeacherRecord) := buildTeacherMap [tW]

/-- Sample matched grade row (subject `M`, year 7, class 1, seat 1). -/
def gW : GradeRecord := ⟨["M", "Math", "S1", "7", "1", "1", "Stu"]⟩

/-- Sample unmatched grade row (subject `X` has no teacher). -/
def gU : GradeRecord := ⟨["X", "Xx", "S2", "7", "9", "2", "Other"]⟩

/-- Sample grade header row of width 7. -/
def hdrW : List String := ["c0", "c1", "c2", "c3", "c4", "c5", "c6"]

/-- Grade CSV input whose admitted rows end up with two different widths:
the header has 7 columns, the first data row 8, the second 7. -/
def cex4records : List (List String) :=
  [hdrW, ["M", "Math", "S1", "7", "1", "1", "Stu", "extra"], ["M", "Math", "S2", "7", "1", "2", "Two"]]

/-- Two distinct report keys differing only in `SubjectCode`. -/
def k91 : ReportKey := ⟨"Lee", "7", "M1", "Math"⟩

/-- Second of the two colliding report keys. -/
def k92 : ReportKey := ⟨"Lee", "7", "M2", "Math"⟩

/-- Teacher rows giving Lee two subjects with the same subject name. -/
def teachers9 : List TeacherRecord :=
  [⟨"M1", "Math", "7", "1", "", "Lee", "lee@x"⟩, ⟨"M2", "Math", "7", "2", "", "Lee", "lee@x"⟩]

/-- Grade rows hitting both of Lee's subjects. -/
def grades9 : List GradeRecord :=
  [⟨["M1", "Math", "S1", "7", "1", "1", "A"]⟩, ⟨["M2", "Math", "S2", "7", "2", "2", "B"]⟩]

/-- Report data produced by matching the two-subject sample. -/
def rd9 : ReportMap := (matchStudentsToTeachers grades9 (buildTeacherMap teachers9)).1

/-- Report data produced by matching the single sample row. -/
def rdW : ReportMap := (matchStudentsToTeachers [gW] tmW).1

/-- Raw teacher CSV with two teacher rows sharing one `teacherKey` but
carrying different names and emails (Alice first, Bob second). -/
def dupTeacherRows : List (List String) :=
  [["h0", "h1", "h2", "h3", "h4", "h5", "h6"],
   ["M", "Math", "7", "1", "", "Alice", "alice@x"],
   ["M", "Math", "7", "1", "", "Bob", "bob@x"]]

/-- Raw grade CSV with one data row matching the duplicated teacher key. -/
def dupGradeRows : List (List String) :=
  [hdrW, ["M", "Math", "S1", "7", "1", "1", "Stu"]]

/-- Teacher list parsed from the duplicated-key teacher CSV. -/
def teachersDup : List TeacherRecord := readTeacherCSV dupTeacherRows

/-- Report data of the duplicated-key run. -/
def rdDup : ReportMap :=
  (matchStudentsToTeachers (readGradeCSV dupGradeRows).2 (buildTeacherMap teachersDup)).1

/-- Report files of the duplicated-key run (all writes succeed). -/
def filesDup : List (ReportKey × String) := reportFilesOf (fun _ => false) rdDup

/-- Distribution plan of the duplicated-key run. -/
def planDup : List (String × List String) := groupReportsByTeacher filesDup rdDup teachersDup

/-- Two sample rows in one class with numeric seat numbers 2 and 10. -/
def gs3 : List GradeRecord :=
  [⟨["M", "Math", "S2", "7", "1", "10", "B"]⟩, ⟨["M", "Math", "S1", "7", "1", "2", "A"]⟩]

/-! ### Association-list map lemmas -/

theorem upsert_cons_eq {κ β : Type} [DecidableEq κ] (k : κ) (v : β) (k0 : κ) (v0 : β)
    (rest : List (κ × β)) (h : k0 = k) : upsert k v ((k0, v0) :: rest) = (k, v) :: rest := by
  simp [upsert, h]

theorem upsert_cons_ne {κ β : Type} [DecidableEq κ] (k : κ) (v : β) (k0 : κ) (v0 : β)
    (rest : List (κ × β)) (h : ¬ k0 = k) :
    upsert k v ((k0, v0) :: rest) = (k0, v0) :: upsert k v rest := by
  simp [upsert, h]

theorem lookupA_cons_eq {κ β : Type} [DecidableEq κ] (k' : κ) (k0 : κ) (v : β)
    (rest : List (κ × β)) (h : k0 = k') : lookupA k' ((k0, v) :: rest) = some v := by
  simp [lookupA, h]

theorem lookupA_cons_ne {κ β : Type} [DecidableEq κ] (k' : κ) (k0 : κ) (v : β)
    (rest : List (κ × β)) (h : ¬ k0 = k') : lookupA k' ((k0, v) :: rest) = lookupA k' rest := by
  simp [lookupA, h]

theorem lookupA_upsert {κ β : Type} [DecidableEq κ] (k k' : κ) (v : β) (m : List (κ × β)) :
    lookupA k' (upsert k v m) = if k = k' then some v else lookupA k' m := by
  induction m with
  | nil => simp [upsert, lookupA]
  | cons kv rest ih =>
    obtain ⟨k0, v0⟩ := kv
    by_cases h : k0 = k
    · rw [upsert_cons_eq k v k0 v0 rest h]
      by_cases h' : k = k'
      · rw [lookupA_cons_eq k' k v rest h', if_pos h']
      · rw [lookupA_cons_ne k' k v rest h', if_neg h', lookupA_cons_ne k' k0 v0 rest (h ▸ h')]
    · rw [upsert_cons_ne k v k0 v0 rest h]
      by_cases h' : k0 = k'
      · have hk : ¬ k = k' := fun e => h (h'.trans e.symm)
        rw [lookupA_cons_eq k' k0 v0 (upsert k v rest) h', if_neg hk,
          lookupA_cons_eq k' k0 v0 rest h']
      · rw [lookupA_cons_ne k' k0 v0 (upsert k v rest) h', lookupA_cons_ne k' k0 v0 rest h', ih]

theorem mem_keys_upsert {κ β : Type} [DecidableEq κ] (k x : κ) (v : β) :
    ∀ m : List (κ × β), x ∈ (upsert k v m).map Prod.fst → x = k ∨ x ∈ m.map Prod.fst
  | [] => by simp [upsert]
  | (k0, v0) :: rest => by
    intro hx
    simp only [List.map_cons, List.mem_cons]
    by_cases h : k0 = k
    · rw [upsert_cons_eq k v k0 v0 rest h] at hx
      simp only [List.map_cons, List.mem_cons] at hx
      rcases hx with hx | hx
      · exact Or.inl hx
      · exact Or.inr (Or.inr hx)
    · rw [upsert_cons_ne k v k0 v0 rest h] at hx
      simp only [List.map_cons, List.mem_cons] at hx
      rcases hx with hx | hx
      · exact Or.inr (Or.inl hx)
      · rcases mem_keys_upsert k x v rest hx with h1 | h1
        · exact Or.inl h1
        · exact Or.inr (Or.inr h1)

theorem nodup_keys_upsert {κ β : Type} [DecidableEq κ] (k : κ) (v : β) :
    ∀ m : List (κ × β), (m.map Prod.fst).Nodup → ((upsert k v m).map Prod.fst).Nodup
  | [] => by simp [upsert]
  | (k0, v0) :: rest => by
    intro hm
    simp only [List.map_cons, List.nodup_cons] at hm
    by_cases h : k0 = k
    · rw [upsert_cons_eq k v k0 v0 rest h]
      simp only [List.map_cons, List.nodup_cons]
      exact ⟨h ▸ hm.1, hm.2⟩
    · rw [upsert_cons_ne k v k0 v0 rest h]
      simp only [List.map_cons, List.nodup_cons]
      refine ⟨fun hx => ?_, nodup_keys_upsert k v rest hm.2⟩
      rcases mem_keys_upsert k k0 v rest hx with h1 | h1
      · exact h h1
      · exact hm.1 h1

theorem nodup_keys_foldl_upsert {κ β γ : Type} [DecidableEq κ] (key : γ → κ) (val : γ → β) :
    ∀ (l : List γ) (m : List (κ × β)), (m.map Prod.fst).Nodup →
      ((l.foldl (fun m x => upsert (key x) (val x) m) m).map Prod.fst).Nodup
  | [], _ => fun h => h
  | x :: l, m => fun h => nodup_keys_foldl_upsert key val l _ (nodup_keys_upsert (key x) (val x) m h)

theorem getLast?_cons_or {α : Type} (a : α) (l : List α) :
    (a :: l).getLast? = match l.getLast? with | some b => some b | none => some a := by
  cases l with
  | nil => rfl
  | cons b t =>
    rw [List.getLast?_cons_cons]
    have h : (b :: t).getLast?.isSome = true := List.getLast?_isSome.2 (by simp)
    obtain ⟨y, hy⟩ := Option.isSome_iff_exists.1 h
    rw [hy]

theorem lookupA_foldl_upsert {κ β γ : Type} [DecidableEq κ] (key : γ → κ) (val : γ → β) (p : κ) :
    ∀ (l : List γ) (m : List (κ × β)),
      lookupA p (l.foldl (fun m x => upsert (key x) (val x) m) m) =
        (match (l.filter (fun x => decide (key x = p))).getLast? with
         | some x => some (val x)
         | none => lookupA p m)
  | [], m => rfl
  | x :: l, m => by
    rw [List.foldl_cons, lookupA_foldl_upsert key val p l (upsert (key x) (val x) m)]
    by_cases h : key x = p
    · rw [List.filter_cons_of_pos (by simpa using h), getLast?_cons_or]
      cases hl : (l.filter (fun x => decide (key x = p))).getLast? with
      | some y => simp
      | none => simp [lookupA_upsert, h]
    · rw [List.filter_cons_of_neg (by simpa using h)]
      cases hl : (l.filter (fun x => decide (key x = p))).getLast? with
      | some y => simp
      | none => simp [lookupA_upsert, h]

theorem getLast?_map_eq {α β : Type} (f : α → β) :
    ∀ l : List α, (l.map f).getLast? = (l.getLast?).map f
  | [] => rfl
  | a :: l => by
    rw [List.map_cons, getLast?_cons_or, getLast?_cons_or a l]
    cases hl : l.getLast? with
    | some y => simp [getLast?_map_eq f l, hl]
    | none => simp [getLast?_map_eq f l, hl]

theorem filter_filterMap_dropP {α β : Type} (f : α → β) (d : α → Prop) [DecidablePred d]
    (q : β → Bool) :
    ∀ l : List α,
      (l.filterMap (fun x => if d x then none else some (f x))).filter q
        = (l.filter (fun x => decide (¬ d x) && q (f x))).map f
  | [] => rfl
  | x :: l => by
    by_cases h : d x
    · simp only [List.filterMap_cons, if_pos h, List.filter_cons, decide_not,
        decide_eq_true_eq] at *
      simp [h, filter_filterMap_dropP f d q l]
    · by_cases hq : q (f x) = true
      · simp [List.filterMap_cons, if_neg h, List.filter_cons, h, hq,
          filter_filterMap_dropP f d q l]
      · simp [List.filterMap_cons, if_neg h, List.filter_cons, h, hq,
          filter_filterMap_dropP f d q l]

/-- The lookup a `buildTeacherMap` index answers is the last teacher in
input order whose `teacherKey` matches. -/
theorem lookupA_buildTeacherMap (ts : List TeacherRecord) (k : String) :
    lookupA k (buildTeacherMap ts) = (ts.filter (fun t => decide (teacherKey t = k))).getLast? := by
  have h := lookupA_foldl_upsert teacherKey (fun t => t) k ts []
  rw [show (ts.foldl (fun m t => upsert (teacherKey t) t m) [] : List (String × TeacherRecord))
      = buildTeacherMap ts from rfl] at h
  rw [h]
  cases (ts.filter (fun t => decide (teacherKey t = k))).getLast? with
  | some t => rfl
  | none => rfl

/-- Claim C2: after index construction over the teacher rows with at least 7
columns, looking up a key returns exactly the `mkTeacher` image (the trimmed
fields) of the last such raw row in input order whose trimmed
(subjectCode, gradeLevel, class) key matches; and the index keys are
duplicate-free, so it holds at most one teacher per key. -/
theorem c2_teacher_index_last_write_wins (records : List (List String)) (k : String) :
    lookupA k (buildTeacherMap (readTeacherCSV records)) =
      (((records.drop 1).filter
          (fun r => decide (¬ r.length < 7) && decide (teacherKey (mkTeacher r) = k))).getLast?).map
        mkTeacher
    ∧ ((buildTeacherMap (readTeacherCSV records)).map Prod.fst).Nodup := by
  constructor
  · rw [lookupA_buildTeacherMap, readTeacherCSV,
      filter_filterMap_dropP mkTeacher (fun r => r.length < 7)
        (fun t => decide (teacherKey t = k)) (records.drop 1),
      getLast?_map_eq]
  · exact nodup_keys_foldl_upsert teacherKey (fun t => t) (readTeacherCSV records) [] (by simp)

/-! ### Matcher lemmas -/

theorem lookupA_pushAt {α κ : Type} [DecidableEq κ] (m : List (κ × List α)) (k k' : κ) (v : α) :
    lookupA k' (pushAt m k v) =
      if k = k' then some ((lookupA k m).getD [] ++ [v]) else lookupA k' m := by
  rw [pushAt, lookupA_upsert]

theorem bucketOf_pushAt (rd : ReportMap) (k k' : ReportKey) (g : GradeRecord) :
    bucketOf (pushAt rd k g) k' = if k = k' then bucketOf rd k' ++ [g] else bucketOf rd k' := by
  rw [bucketOf, lookupA_pushAt]
  by_cases h : k = k'
  · subst h; simp [bucketOf]
  · simp [h, bucketOf]

theorem matchFold_bucket (tmap : List (String × TeacherRecord)) :
    ∀ (gs : List GradeRecord) (acc : ReportMap × List GradeRecord) (k : ReportKey),
      bucketOf (gs.foldl (matchStep tmap) acc).1 k =
        bucketOf acc.1 k ++ gs.filter (fun g => decide (matchedKey tmap g = some k))
  | [], acc, k => by simp
  | g :: gs, acc, k => by
    rw [List.foldl_cons, matchFold_bucket tmap gs (matchStep tmap acc g) k]
    cases hl : lookupA (gradeKey g) tmap with
    | none =>
      have h1 : (matchStep tmap acc g).1 = acc.1 := by rw [matchStep, hl]
      have h2 : matchedKey tmap g = none := by rw [matchedKey, hl]; rfl
      rw [h1, List.filter_cons_of_neg (by simp [h2])]
    | some t =>
      have h1 : (matchStep tmap acc g).1 = pushAt acc.1 (reportKeyOf t g) g := by
        rw [matchStep, hl]
      have h2 : matchedKey tmap g = some (reportKeyOf t g) := by rw [matchedKey, hl]; rfl
      rw [h1, bucketOf_pushAt]
      by_cases hk : reportKeyOf t g = k
      · rw [if_pos hk, List.filter_cons_of_pos (by simp [h2, hk])]
        simp
      · rw [if_neg hk, List.filter_cons_of_neg (by simp [h2, hk])]

theorem matchFold_errors (tmap : List (String × TeacherRecord)) :
    ∀ (gs : List GradeRecord) (acc : ReportMap × List GradeRecord),
      (gs.foldl (matchStep tmap) acc).2 =
        acc.2 ++ gs.filter (fun g => (lookupA (gradeKey g) tmap).isNone)
  | [], acc => by simp
  | g :: gs, acc => by
    rw [List.foldl_cons, matchFold_errors tmap gs (matchStep tmap acc g)]
    cases hl : lookupA (gradeKey g) tmap with
    | none =>
      have h1 : (matchStep tmap acc g).2 = acc.2 ++ [g] := by rw [matchStep, hl]
      rw [h1, List.filter_cons_of_pos (by simp [hl])]
      simp
    | some t =>
      have h1 : (matchStep tmap acc g).2 = acc.2 := by rw [matchStep, hl]
      rw [h1, List.filter_cons_of_neg (by simp [hl])]

/-- Claim C1: a grade row with at least 7 fields whose (subjectCode,
gradeLevel, class) key — the group field playing no part in it — finds a
teacher in the index is appended to exactly one report bucket, the one keyed
by the matched teacher's name together with the row's own gradeLevel,
subjectCode and subjectName, and it does not appear in the unmatched
sequence. -/
theorem c1_matched_row_bucketed_uniquely (grades : List GradeRecord)
    (tmap : List (String × TeacherRecord)) (g : GradeRecord) (t : TeacherRecord)
    (_hw : 7 ≤ g.Row.length) (hg : g ∈ grades) (ht : lookupA (gradeKey g) tmap = some t) :
    g ∈ bucketOf (matchStudentsToTeachers grades tmap).1 (reportKeyOf t g)
    ∧ (∀ k : ReportKey,
        g ∈ bucketOf (matchStudentsToTeachers grades tmap).1 k → k = reportKeyOf t g)
    ∧ g ∉ (matchStudentsToTeachers grades tmap).2
    ∧ (∀ g' : GradeRecord, g'.SubjectCode = g.SubjectCode → g'.Year = g.Year →
        g'.Class = g.Class → gradeKey g' = gradeKey g) := by
  have hmk : matchedKey tmap g = some (reportKeyOf t g) := by rw [matchedKey, ht]; rfl
  have hnil : ∀ k : ReportKey, bucketOf (([], []) : ReportMap × List GradeRecord).1 k = [] := by
    intro k; rfl
  refine ⟨?_, ?_, ?_, ?_⟩
  · rw [matchStudentsToTeachers, matchFold_bucket tmap grades ([], []) (reportKeyOf t g), hnil]
    exact List.mem_filter.2 ⟨hg, by simp [hmk]⟩
  · intro k hk
    rw [matchStudentsToTeachers, matchFold_bucket tmap grades ([], []) k, hnil] at hk
    have := (List.mem_filter.1 hk).2
    simp only [decide_eq_true_eq, hmk, Option.some.injEq] at this
    exact this.symm
  · intro hmem
    rw [matchStudentsToTeachers, matchFold_errors tmap grades ([], [])] at hmem
    have hmem' : g ∈ grades.filter (fun g => (lookupA (gradeKey g) tmap).isNone) := hmem
    have hfalse := (List.mem_filter.1 hmem').2
    rw [ht] at hfalse
    simp at hfalse
  · intro g' h1 h2 h3
    rw [gradeKey, gradeKey, h1, h2, h3]

/-- Closed instance of C1: in a two-row batch, the matched sample row lands
in its teacher's bucket and not among the unmatched records. -/
theorem c1_matched_row_bucketed_uniquely_inst :
    gW ∈ bucketOf (matchStudentsToTeachers [gW, gU] tmW).1 (reportKeyOf tW gW)
    ∧ gW ∉ (matchStudentsToTeachers [gW, gU] tmW).2 := by
  have h := c1_matched_row_bucketed_uniquely [gW, gU] tmW gW tW (by decide) (by decide) (by decide)
  exact ⟨h.1, h.2.2.1⟩

/-- Claim C5: the unmatched sequence is exactly the grade rows whose key
finds no teacher, in input order; such a row is in no report bucket; and
when any unmatched rows exist, exactly one auxiliary export is emitted,
carrying the shared header followed by exactly the unmatched rows. -/
theorem c5_unmatched_rows_exported (grades : List GradeRecord)
    (tmap : List (String × TeacherRecord)) (hdr : List String) :
    (matchStudentsToTeachers grades tmap).2
        = grades.filter (fun g => (lookupA (gradeKey g) tmap).isNone)
    ∧ (∀ g ∈ grades, lookupA (gradeKey g) tmap = none →
        g ∈ (matchStudentsToTeachers grades tmap).2
        ∧ ∀ k : ReportKey, g ∉ bucketOf (matchStudentsToTeachers grades tmap).1 k)
    ∧ ((matchStudentsToTeachers grades tmap).2 ≠ [] →
        errorExport hdr (matchStudentsToTeachers grades tmap).2
          = some ("output/error.csv",
              hdr :: ((matchStudentsToTeachers grades tmap).2).map GradeRecord.Row)) := by
  have herrs : (matchStudentsToTeachers grades tmap).2
      = grades.filter (fun g => (lookupA (gradeKey g) tmap).isNone) := by
    rw [matchStudentsToTeachers, matchFold_errors tmap grades ([], [])]
    rfl
  refine ⟨herrs, ?_, ?_⟩
  · intro g hg hnone
    constructor
    · rw [herrs]
      exact List.mem_filter.2 ⟨hg, by simp [hnone]⟩
    · intro k hk
      rw [matchStudentsToTeachers, matchFold_bucket tmap grades ([], []) k] at hk
      have hmem : g ∈ grades.filter (fun g => decide (matchedKey tmap g = some k)) := by
        simpa [bucketOf, lookupA] using hk
      have := (List.mem_filter.1 hmem).2
      rw [matchedKey, hnone] at this
      simp at this
  · intro hne
    rw [errorExport, if_neg hne, generateErrorCSV]

/-- Closed instance of C5: the sample unmatched row reaches the error
export, which carries the shared header and exactly the unmatched rows. -/
theorem c5_unmatched_rows_exported_inst :
    gU ∈ (matchStudentsToTeachers [gW, gU] tmW).2
    ∧ errorExport hdrW (matchStudentsToTeachers [gW, gU] tmW).2
        = some ("output/error.csv",
            hdrW :: ((matchStudentsToTeachers [gW, gU] tmW).2).map GradeRecord.Row) := by
  have h := c5_unmatched_rows_exported [gW, gU] tmW hdrW
  exact ⟨(h.2.1 gU (by decide) (by decide)).1, h.2.2 (by decide)⟩

/-! ### Grade CSV admission and padding (C4) -/

theorem readGradeCSV_fst (records : List (List String)) :
    (readGradeCSV records).1 = (records.head?).getD [] := rfl

theorem readGradeCSV_snd (records : List (List String)) :
    (readGradeCSV records).2 = (records.drop 1).filterMap
      (fun row => if row.length < 7 then none
        else some ⟨padRow ((records.head?).getD []) row⟩) := rfl

theorem padRow_length (hdr row : List String) :
    (padRow hdr row).length = max row.length hdr.length := by
  rw [padRow]
  split
  · rename_i h
    rw [List.length_append, List.length_replicate]
    omega
  · rename_i h
    omega

theorem padRow_take (hdr row : List String) : (padRow hdr row).take row.length = row := by
  rw [padRow]
  split
  · exact List.take_left row _
  · exact List.take_length row

theorem padRow_drop (hdr row : List String) : ∀ s ∈ (padRow hdr row).drop row.length, s = "" := by
  rw [padRow]
  split
  · intro s hs
    rw [List.drop_left] at hs
    exact List.eq_of_mem_replicate hs
  · intro s hs
    rw [List.drop_length] at hs
    simp at hs

/-- Claim C4 (amended): a raw grade row is admitted iff it has at least 7
fields; an admitted row keeps its own cells and is right-padded with empty
strings up to the header width when shorter than it (and left unchanged
otherwise, its length becoming the maximum of the two); when no data row is
wider than the header, all admitted rows share one width. -/
theorem c4_admission_and_padding (records : List (List String)) :
    (∀ row ∈ records.drop 1, ¬ row.length < 7 →
        (⟨padRow (readGradeCSV records).1 row⟩ : GradeRecord) ∈ (readGradeCSV records).2)
    ∧ (∀ g ∈ (readGradeCSV records).2,
        ∃ row, row ∈ records.drop 1 ∧ ¬ row.length < 7
          ∧ g.Row = padRow (readGradeCSV records).1 row)
    ∧ (∀ hdr row : List String,
        (padRow hdr row).length = max row.length hdr.length
        ∧ (padRow hdr row).take row.length = row
        ∧ ∀ s ∈ (padRow hdr row).drop row.length, s = "")
    ∧ ((∀ row ∈ records.drop 1, row.length ≤ (readGradeCSV records).1.length) →
        ∀ g1 ∈ (readGradeCSV records).2, ∀ g2 ∈ (readGradeCSV records).2,
          g1.Row.length = g2.Row.length) := by
  have hb : ∀ g ∈ (readGradeCSV records).2,
      ∃ row, row ∈ records.drop 1 ∧ ¬ row.length < 7
        ∧ g.Row = padRow (readGradeCSV records).1 row := by
    intro g hgm
    rw [readGradeCSV_snd] at hgm
    obtain ⟨row, hr, hstep⟩ := List.mem_filterMap.1 hgm
    by_cases h : row.length < 7
    · rw [if_pos h] at hstep
      exact absurd hstep (by simp)
    · rw [if_neg h] at hstep
      refine ⟨row, hr, h, ?_⟩
      rw [readGradeCSV_fst, ← Option.some.inj hstep]
  refine ⟨?_, hb, ?_, ?_⟩
  · intro row hr hlen
    rw [readGradeCSV_snd]
    exact List.mem_filterMap.2 ⟨row, hr, by rw [if_neg hlen, readGradeCSV_fst]⟩
  · intro hdr row
    exact ⟨padRow_length hdr row, padRow_take hdr row, padRow_drop hdr row⟩
  · intro hle g1 h1 g2 h2
    obtain ⟨r1, hr1, hl1, he1⟩ := hb g1 h1
    obtain ⟨r2, hr2, hl2, he2⟩ := hb g2 h2
    have e1 : g1.Row.length = max r1.length (readGradeCSV records).1.length := by
      rw [he1, padRow_length]
    have e2 : g2.Row.length = max r2.length (readGradeCSV records).1.length := by
      rw [he2, padRow_length]
    have hle1 := hle r1 hr1
    have hle2 := hle r2 hr2
    omega

/-- Counterexample to C4 as stated: with a 7-column header, an 8-field and a
7-field data row are both admitted, so the admitted rows of one batch do
not all share one width. -/
theorem c4_share_width_cex :
    ¬ (∀ g1 ∈ (readGradeCSV cex4records).2, ∀ g2 ∈ (readGradeCSV cex4records).2,
        g1.Row.length = g2.Row.length) := by decide

/-- Closed instance of C4 (amended): on a batch whose rows are no wider than
the header, the sample row is admitted and all admitted rows share one
width. -/
theorem c4_admission_and_padding_inst :
    (⟨padRow (readGradeCSV dupGradeRows).1 ["M", "Math", "S1", "7", "1", "1", "Stu"]⟩ : GradeRecord)
        ∈ (readGradeCSV dupGradeRows).2
    ∧ ∀ g1 ∈ (readGradeCSV dupGradeRows).2, ∀ g2 ∈ (readGradeCSV dupGradeRows).2,
        g1.Row.length = g2.Row.length := by
  have h := c4_admission_and_padding dupGradeRows
  exact ⟨h.1 _ (by decide) (by decide), h.2.2.2 (by decide)⟩

/-! ### File naming and fatality (C6, C7) -/

theorem filterMap_some_map {α β : Type} (f : α → β) :
    ∀ l : List α, l.filterMap (fun x => some (f x)) = l.map f
  | [] => rfl
  | x :: l => by
    rw [List.filterMap_cons]
    simp [filterMap_some_map f l]

/-- Counterexample to C6 as stated: two distinct `ReportKey`s that differ
only in the subject code map to the same report file path. -/
theorem c6_collision_cex : fileName k91 = fileName k92 ∧ k91 ≠ k92 := by decide

/-- Claim C6 (amended): with no write failures, `generateCSVReports` pairs
every bucket key with exactly one file, at `fileName`; and the file name is
a deterministic function of the teacher name, grade level and subject name
alone — the subject code is not part of it, so two distinct `ReportKey`s
differing only in subject code share one path. -/
theorem c6_filename_deterministic (rd : ReportMap) (k1 k2 : ReportKey)
    (h1 : k1.TeacherName = k2.TeacherName) (h2 : k1.Year = k2.Year)
    (h3 : k1.SubjectName = k2.SubjectName) :
    fileName k1 = fileName k2
    ∧ reportFilesOf (fun _ => false) rd = rd.map (fun kv => (kv.1, fileName kv.1)) := by
  constructor
  · rw [fileName, fileName, h1, h2, h3]
  · show rd.filterMap (fun kv => some (kv.1, fileName kv.1)) = _
    exact filterMap_some_map _ rd

/-- Closed instance of C6 (amended): a concrete key pair with equal name,
year and subject name gets one path, and the sample run emits exactly one
file per bucket key. -/
theorem c6_filename_deterministic_inst :
    fileName k91 = fileName ⟨"Lee", "7", "X", "Math"⟩
    ∧ reportFilesOf (fun _ => false) rdW = rdW.map (fun kv => (kv.1, fileName kv.1)) :=
  c6_filename_deterministic rdW k91 ⟨"Lee", "7", "X", "Math"⟩ rfl rfl rfl

/-- Counterexample to C7 as stated: one nonempty bucket whose single write
fails — the run halts fatally although the number of report buckets after
matching is not zero. -/
theorem c7_fatal_despite_bucket_cex :
    mainFatal (fun _ => true) rdW = true ∧ rdW ≠ [] := by decide

/-- Claim C7 (amended): the run halts fatally iff zero report files were
successfully written — with no write failure that is equivalent to zero
report buckets; a missing teacher is never fatal (every grade row still
ends in a bucket or in the unmatched sequence); and a failed individual
write only skips that report, every other bucket still getting its file. -/
theorem c7_fatal_iff_no_files (fail : String → Bool) (rd : ReportMap)
    (grades : List GradeRecord) (tmap : List (String × TeacherRecord)) :
    (mainFatal fail rd = true ↔ ∀ kv ∈ rd, fail (fileName kv.1) = true)
    ∧ (mainFatal (fun _ => false) rd = true ↔ rd = [])
    ∧ (∀ g ∈ grades, (∃ k, g ∈ bucketOf (matchStudentsToTeachers grades tmap).1 k)
        ∨ g ∈ (matchStudentsToTeachers grades tmap).2)
    ∧ (∀ kv ∈ rd, fail (fileName kv.1) = false →
        (kv.1, fileName kv.1) ∈ reportFilesOf fail rd) := by
  refine ⟨?_, ?_, ?_, ?_⟩
  · rw [mainFatal, List.isEmpty_iff, reportFilesOf, List.filterMap_eq_nil_iff]
    constructor
    · intro h kv hkv
      have hk := h kv hkv
      by_cases hf : fail (fileName kv.1) = true
      · exact hf
      · rw [if_neg hf] at hk
        exact absurd hk (by simp)
    · intro h kv hkv
      rw [if_pos (h kv hkv)]
  · rw [mainFatal, List.isEmpty_iff]
    have : reportFilesOf (fun _ => false) rd = rd.map (fun kv => (kv.1, fileName kv.1)) := by
      show rd.filterMap (fun kv => some (kv.1, fileName kv.1)) = _
      exact filterMap_some_map _ rd
    rw [this]
    simp
  · intro g hg
    cases hl : lookupA (gradeKey g) tmap with
    | none =>
      refine Or.inr ?_
      rw [matchStudentsToTeachers, matchFold_errors tmap grades ([], [])]
      exact List.mem_filter.2 ⟨hg, by simp [hl]⟩
    | some t =>
      refine Or.inl ⟨reportKeyOf t g, ?_⟩
      rw [matchStudentsToTeachers, matchFold_bucket tmap grades ([], []) (reportKeyOf t g)]
      refine List.mem_append.2 (Or.inr (List.mem_filter.2 ⟨hg, ?_⟩))
      simp [matchedKey, hl]
  · intro kv hkv hf
    rw [reportFilesOf]
    exact List.mem_filterMap.2 ⟨kv, hkv, by rw [if_neg (by simp [hf])]⟩

/-- Closed instance of C7 (amended): the unmatched sample row still ends in
the unmatched sequence (the batch goes on), and with no write failures the
sample run is not fatal since its bucket map is nonempty. -/
theorem c7_fatal_iff_no_files_inst :
    ((∃ k, gU ∈ bucketOf (matchStudentsToTeachers [gW, gU] tmW).1 k)
      ∨ gU ∈ (matchStudentsToTeachers [gW, gU] tmW).2)
    ∧ (mainFatal (fun _ => false) rdW = true ↔ rdW = []) := by
  have h := c7_fatal_iff_no_files (fun _ => false) rdW [gW, gU] tmW
  exact ⟨h.2.2.1 gU (by decide), h.2.1⟩

/-! ### Distribution planner lemmas (C8, C10) -/

theorem lookupA_groupFold (rd : ReportMap) (ts : List TeacherRecord) :
    ∀ (rfs : List (ReportKey × String)) (acc : List (String × List String)) (e : String),
      lookupA e (rfs.foldl (groupStep rd ts) acc) =
        if ((rfs.filterMap (attrib rd ts)).filter (fun p => decide (p.1 = e))).map Prod.snd = []
        then lookupA e acc
        else some ((lookupA e acc).getD []
          ++ ((rfs.filterMap (attrib rd ts)).filter (fun p => decide (p.1 = e))).map Prod.snd)
  | [], acc, e => by simp
  | kf :: rfs, acc, e => by
    rw [List.foldl_cons, lookupA_groupFold rd ts rfs (groupStep rd ts acc kf) e]
    cases ha : attrib rd ts kf with
    | none =>
      have hstep : groupStep rd ts acc kf = acc := by rw [groupStep, ha]
      rw [hstep, List.filterMap_cons, ha]
    | some p =>
      obtain ⟨e', f⟩ := p
      have hstep : groupStep rd ts acc kf = pushAt acc e' f := by rw [groupStep, ha]
      rw [hstep, List.filterMap_cons, ha]
      by_cases he : e' = e
      · rw [List.filter_cons_of_pos (by simpa using he)]
        have hl : lookupA e (pushAt acc e' f) = some ((lookupA e acc).getD [] ++ [f]) := by
          rw [lookupA_pushAt, if_pos he, he]
        rw [List.map_cons, if_neg (List.cons_ne_nil f _)]
        by_cases hc : ((rfs.filterMap (attrib rd ts)).filter (fun p => decide (p.1 = e))).map
            Prod.snd = []
        · rw [if_pos hc, hl, hc]
        · rw [if_neg hc, hl, Option.getD_some, List.append_assoc, List.singleton_append]
      · rw [List.filter_cons_of_neg (by simpa using he)]
        have hl : lookupA e (pushAt acc e' f) = lookupA e acc := by
          rw [lookupA_pushAt, if_neg he]
        rw [hl]

/-- Claim C8: for every `(key, file)` pair in the report file map, the plan
re-derives the match key from the first row of that key's bucket, linearly
scans the original teacher list for the first teacher with that key, and
appends the file path to that teacher's email's list; and an email appears
in the plan only through such a pair — a teacher with no exported file gets
no entry. -/
theorem c8_distribution_plan (rfs : List (ReportKey × String)) (rd : ReportMap)
    (ts : List TeacherRecord) :
    (∀ kf ∈ rfs, ∀ (g : GradeRecord) (gs : List GradeRecord),
        bucketOf rd kf.1 = g :: gs →
        ∀ t : TeacherRecord, ts.find? (fun t => decide (teacherKey t = gradeKey g)) = some t →
          kf.2 ∈ filesOf (groupReportsByTeacher rfs rd ts) t.Email)
    ∧ (∀ e : String, lookupA e (groupReportsByTeacher rfs rd ts) ≠ none →
        ∃ kf ∈ rfs, ∃ (g : GradeRecord) (gs : List GradeRecord), bucketOf rd kf.1 = g :: gs
          ∧ ∃ t : TeacherRecord, ts.find? (fun t => decide (teacherKey t = gradeKey g)) = some t
            ∧ t.Email = e) := by
  have hmaster := lookupA_groupFold rd ts rfs ([] : List (String × List String))
  constructor
  · intro kf hkf g gs hb t hft
    have hat : attrib rd ts kf = some (t.Email, kf.2) := by
      rw [attrib, hb]
      show Option.map (fun t => (t.Email, kf.2))
          (ts.find? (fun t => decide (teacherKey t = gradeKey g))) = some (t.Email, kf.2)
      rw [hft]
      rfl
    have hmem : (t.Email, kf.2) ∈ rfs.filterMap (attrib rd ts) :=
      List.mem_filterMap.2 ⟨kf, hkf, hat⟩
    have hc : kf.2 ∈ ((rfs.filterMap (attrib rd ts)).filter
        (fun p => decide (p.1 = t.Email))).map Prod.snd :=
      List.mem_map.2 ⟨(t.Email, kf.2), List.mem_filter.2 ⟨hmem, by simp⟩, rfl⟩
    have hne : ((rfs.filterMap (attrib rd ts)).filter
        (fun p => decide (p.1 = t.Email))).map Prod.snd ≠ [] := by
      intro h0
      rw [h0] at hc
      exact absurd hc (List.not_mem_nil _)
    rw [filesOf, groupReportsByTeacher, hmaster t.Email, if_neg hne, Option.getD_some]
    exact hc
  · intro e hne
    rw [groupReportsByTeacher, hmaster e] at hne
    by_cases h0 : ((rfs.filterMap (attrib rd ts)).filter
        (fun p => decide (p.1 = e))).map Prod.snd = []
    · rw [if_pos h0] at hne
      exact absurd rfl hne
    · obtain ⟨p, hp⟩ := List.exists_mem_of_ne_nil
        ((rfs.filterMap (attrib rd ts)).filter (fun p => decide (p.1 = e)))
        (fun hfil => h0 (by rw [hfil]; rfl))
      have hpf := List.mem_filter.1 hp
      obtain ⟨kf, hkf, hat⟩ := List.mem_filterMap.1 hpf.1
      have hpe : p.1 = e := by simpa using hpf.2
      cases hbk : bucketOf rd kf.1 with
      | nil =>
        rw [attrib, hbk] at hat
        exact absurd hat (by simp)
      | cons g gs =>
        rw [attrib, hbk] at hat
        obtain ⟨t, hft, hpt⟩ := Option.map_eq_some'.1 hat
        refine ⟨kf, hkf, g, gs, hbk, t, hft, ?_⟩
        rw [← hpe, ← hpt]

/-- Closed instance of C8: in the duplicate-key sample run, the written
report file is appended to the attachment list of the email found by the
linear scan. -/
theorem c8_distribution_plan_inst :
    "output/Bob_年級7_Math.csv" ∈ filesOf planDup "alice@x" := by
  have h := c8_distribution_plan filesDup rdDup teachersDup
  exact h.1 (⟨"Bob", "7", "M", "Math"⟩, "output/Bob_年級7_Math.csv") (by decide)
    ⟨["M", "Math", "S1", "7", "1", "1", "Stu"]⟩ [] (by decide)
    ⟨"M", "Math", "7", "1", "", "Alice", "alice@x"⟩ (by decide)

/-- Claim C10: with two teacher rows sharing one `TeacherIndexKey` but
carrying different names and emails (Alice first, Bob second), the index —
hence the report key and the file name — keeps the last row (Bob), while
the distribution plan's linear scan finds the first row (Alice): the file
named after Bob is attached to Alice's email, and Bob's email gets no
entry. -/
theorem c10_dup_key_email_mismatch :
    teachersDup = [⟨"M", "Math", "7", "1", "", "Alice", "alice@x"⟩,
      ⟨"M", "Math", "7", "1", "", "Bob", "bob@x"⟩]
    ∧ rdDup.map Prod.fst = [⟨"Bob", "7", "M", "Math"⟩]
    ∧ filesDup = [(⟨"Bob", "7", "M", "Math"⟩, "output/Bob_年級7_Math.csv")]
    ∧ lookupA "alice@x" planDup = some ["output/Bob_年級7_Math.csv"]
    ∧ lookupA "bob@x" planDup = none := by decide

/-! ### Rerun determinism of the written files (C9) -/

theorem lookupA_writeReports (hdr : List String) (rd : ReportMap) (o : List ReportKey)
    (p : String) :
    lookupA p (writeReports hdr rd o) =
      match (o.filter (fun k => decide (fileName k = p))).getLast? with
      | some k => some (reportContent hdr rd k)
      | none => none := by
  have h := lookupA_foldl_upsert fileName (reportContent hdr rd) p o []
  cases hl : (o.filter (fun k => decide (fileName k = p))).getLast? with
  | some k => rw [writeReports, h, hl]
  | none =>
    rw [writeReports, h, hl]
    rfl

theorem getLast?_eq_of_perm_of_allEq {α : Type} (l1 l2 : List α)
    (hp : l1.Perm l2) (hall : ∀ a ∈ l1, ∀ b ∈ l1, a = b) : l1.getLast? = l2.getLast? := by
  cases l1 with
  | nil =>
    have h2 : l2 = [] := List.perm_nil.1 hp.symm
    rw [h2]
  | cons a t =>
    have h1ne : (a :: t) ≠ [] := List.cons_ne_nil a t
    have h2 : l2 ≠ [] := by
      intro h0
      rw [h0] at hp
      exact List.cons_ne_nil a t (List.perm_nil.1 hp)
    rw [List.getLast?_eq_getLast _ h1ne, List.getLast?_eq_getLast _ h2]
    exact congrArg some
      (hall _ (List.getLast_mem h1ne) _ (hp.mem_iff.2 (List.getLast_mem h2)))

/-- Counterexample to C9 as stated: a concrete run whose two `ReportKey`s
share one file path — both key orders are admissible iterations of the same
bucket map built from identical inputs, yet they leave different bytes at
the shared path, so two runs need not produce byte-identical files. -/
theorem c9_rerun_cex :
    List.Perm [k91, k92] (rd9.map Prod.fst)
    ∧ List.Perm [k92, k91] (rd9.map Prod.fst)
    ∧ lookupA "output/Lee_年級7_Math.csv" (writeReports hdrW rd9 [k91, k92])
        ≠ lookupA "output/Lee_年級7_Math.csv" (writeReports hdrW rd9 [k92, k91]) := by decide

/-- Claim C9 (amended): on identical inputs the per-path file contents are
independent of the bucket iteration order — hence reruns are
byte-identical — provided distinct report keys of the run map to distinct
file paths; the sole nondeterminism is the Go map iteration order, and a
shared path (possible since `fileName` omits the subject code) is the only
way it can leak into the bytes. -/
theorem c9_rerun_byte_identical (hdr : List String) (rd : ReportMap) (o1 o2 : List ReportKey)
    (hperm : o1.Perm o2)
    (hinj : ∀ k1 ∈ o1, ∀ k2 ∈ o1, fileName k1 = fileName k2 → k1 = k2) :
    ∀ p : String, lookupA p (writeReports hdr rd o1) = lookupA p (writeReports hdr rd o2) := by
  intro p
  rw [lookupA_writeReports, lookupA_writeReports]
  have hall : ∀ a ∈ o1.filter (fun k => decide (fileName k = p)),
      ∀ b ∈ o1.filter (fun k => decide (fileName k = p)), a = b := by
    intro a ha b hb
    have ha' := List.mem_filter.1 ha
    have hb' := List.mem_filter.1 hb
    refine hinj a ha'.1 b hb'.1 ?_
    have e1 : fileName a = p := by simpa using ha'.2
    have e2 : fileName b = p := by simpa using hb'.2
    rw [e1, e2]
  rw [getLast?_eq_of_perm_of_allEq _ _ (hperm.filter _) hall]

/-- Closed instance of C9 (amended): two orders of a key pair with distinct
file paths leave identical bytes at the collision-prone path. -/
theorem c9_rerun_byte_identical_inst :
    lookupA "output/Lee_年級7_Math.csv"
        (writeReports hdrW rd9 [k91, ⟨"Lee", "8", "M1", "Math"⟩])
      = lookupA "output/Lee_年級7_Math.csv"
          (writeReports hdrW rd9 [⟨"Lee", "8", "M1", "Math"⟩, k91]) :=
  c9_rerun_byte_identical hdrW rd9 [k91, ⟨"Lee", "8", "M1", "Math"⟩]
    [⟨"Lee", "8", "M1", "Math"⟩, k91] (by decide) (by decide) "output/Lee_年級7_Math.csv"

/-! ### Report sorting (C3) -/

theorem gradeLE_iff (a b : GradeRecord) : gradeLE a b = true ↔ reportLE a b := by
  rw [gradeLE, Bool.not_eq_true']
  by_cases h : a.Class = b.Class
  · have hne : ¬ b.Class ≠ a.Class := by simp [h]
    cases hA : atoi? a.SeatNumber with
    | none =>
      cases hB : atoi? b.SeatNumber with
      | none => simp [gradeLess, reportLE, hne, hA, hB, h, not_lt]
      | some y => simp [gradeLess, reportLE, hne, hA, hB, h, not_lt]
    | some x =>
      cases hB : atoi? b.SeatNumber with
      | none => simp [gradeLess, reportLE, hne, hA, hB, h, not_lt]
      | some y => simp [gradeLess, reportLE, hne, hA, hB, h, not_lt]
  · have hne : b.Class ≠ a.Class := fun e => h e.symm
    simp only [gradeLess, reportLE, if_pos hne, decide_eq_false_iff_not, not_lt, h,
      false_and, or_false]
    exact ⟨fun hle => lt_of_le_of_ne hle h, le_of_lt⟩

theorem reportLE_total (a b : GradeRecord) : reportLE a b ∨ reportLE b a := by
  rcases lt_trichotomy a.Class b.Class with h | h | h
  · exact Or.inl (Or.inl h)
  · cases hA : atoi? a.SeatNumber with
    | none =>
      cases hB : atoi? b.SeatNumber with
      | none =>
        rcases le_total a.SeatNumber b.SeatNumber with hs | hs
        · exact Or.inl (Or.inr ⟨h, by simp [hA, hB, hs]⟩)
        · exact Or.inr (Or.inr ⟨h.symm, by simp [hA, hB, hs]⟩)
      | some y =>
        rcases le_total a.SeatNumber b.SeatNumber with hs | hs
        · exact Or.inl (Or.inr ⟨h, by simp [hA, hB, hs]⟩)
        · exact Or.inr (Or.inr ⟨h.symm, by simp [hA, hB, hs]⟩)
    | some x =>
      cases hB : atoi? b.SeatNumber with
      | none =>
        rcases le_total a.SeatNumber b.SeatNumber with hs | hs
        · exact Or.inl (Or.inr ⟨h, by simp [hA, hB, hs]⟩)
        · exact Or.inr (Or.inr ⟨h.symm, by simp [hA, hB, hs]⟩)
      | some y =>
        rcases le_total x y with hs | hs
        · exact Or.inl (Or.inr ⟨h, by simp [hA, hB, hs]⟩)
        · exact Or.inr (Or.inr ⟨h.symm, by simp [hA, hB, hs]⟩)
  · exact Or.inr (Or.inl h)

theorem insertSorted_perm {α : Type} (le : α → α → Bool) (x : α) :
    ∀ l : List α, (insertSorted le x l).Perm (x :: l)
  | [] => List.Perm.refl _
  | a :: l => by
    rw [insertSorted]
    by_cases h : le x a = true
    · rw [if_pos h]
    · rw [if_neg h]
      exact ((insertSorted_perm le x l).cons a).trans (List.Perm.swap x a l)

theorem sortBy_perm {α : Type} (le : α → α → Bool) : ∀ l : List α, (sortBy le l).Perm l
  | [] => List.Perm.refl _
  | a :: l => (insertSorted_perm le a (sortBy le l)).trans (List.Perm.cons a (sortBy_perm le l))

theorem chain'_insertSorted {α : Type} (le : α → α → Bool)
    (htot : ∀ a b, le a b = true ∨ le b a = true) (x : α) :
    ∀ l : List α, List.Chain' (fun a b => le a b = true) l →
      List.Chain' (fun a b => le a b = true) (insertSorted le x l)
  | [], _ => List.chain'_singleton x
  | a :: l, hc => by
    rw [insertSorted]
    by_cases h : le x a = true
    · rw [if_pos h]
      exact List.chain'_cons.2 ⟨h, hc⟩
    · rw [if_neg h]
      have hax : le a x = true := (htot x a).resolve_left h
      cases l with
      | nil =>
        rw [insertSorted]
        exact List.chain'_cons.2 ⟨hax, List.chain'_singleton x⟩
      | cons b t =>
        have hc' := List.chain'_cons.1 hc
        have hrec := chain'_insertSorted le htot x (b :: t) hc'.2
        rw [insertSorted]
        by_cases hxb : le x b = true
        · rw [if_pos hxb]
          rw [insertSorted, if_pos hxb] at hrec
          exact List.chain'_cons.2 ⟨hax, hrec⟩
        · rw [if_neg hxb]
          rw [insertSorted, if_neg hxb] at hrec
          exact List.chain'_cons.2 ⟨hc'.1, hrec⟩

theorem chain'_sortBy {α : Type} (le : α → α → Bool)
    (htot : ∀ a b, le a b = true ∨ le b a = true) :
    ∀ l : List α, List.Chain' (fun a b => le a b = true) (sortBy le l)
  | [] => List.chain'_nil
  | a :: l => chain'_insertSorted le htot a (sortBy le l) (chain'_sortBy le htot l)

theorem chain'_imp_mem {α : Type} {R S : α → α → Prop} :
    ∀ l : List α, List.Chain' R l → (∀ a ∈ l, ∀ b ∈ l, R a b → S a b) → List.Chain' S l
  | [], _, _ => List.chain'_nil
  | [a], _, _ => List.chain'_singleton a
  | a :: b :: t, hc, him => by
    obtain ⟨hab, hc'⟩ := List.chain'_cons.1 hc
    refine List.chain'_cons.2 ⟨him a (by simp) b (by simp) hab, ?_⟩
    exact chain'_imp_mem (b :: t) hc'
      (fun x hx y hy h => him x (List.mem_cons_of_mem a hx) y (List.mem_cons_of_mem a hy) h)

/-- Claim C3: the rows `createCSVReport` writes for a bucket are the header
followed by a permutation of the bucket sorted by the report order: each
adjacent pair is non-decreasing under `reportLE` (class string first, seat
numbers compared numerically when both parse as integers and
lexicographically otherwise), classes are non-decreasing across the whole
file, the comparison is total — it never fails, whatever the seat labels —
and when every seat number parses, rows of equal class are globally
non-decreasing by numeric seat value. -/
theorem c3_report_rows_sorted (gs : List GradeRecord) :
    (∀ (hdr : List String) (rd : ReportMap) (k : ReportKey),
        reportContent hdr rd k = hdr :: (sortGrades (bucketOf rd k)).map GradeRecord.Row)
    ∧ (sortGrades gs).Perm gs
    ∧ List.Chain' reportLE (sortGrades gs)
    ∧ (sortGrades gs).Pairwise (fun a b => a.Class ≤ b.Class)
    ∧ (∀ a b : GradeRecord, reportLE a b ∨ reportLE b a)
    ∧ ((∀ g ∈ gs, (atoi? g.SeatNumber).isSome = true) →
        (sortGrades gs).Pairwise (fun a b => a.Class = b.Class → seatVal a ≤ seatVal b)) := by
  have htot : ∀ a b : GradeRecord, gradeLE a b = true ∨ gradeLE b a = true := by
    intro a b
    rcases reportLE_total a b with h | h
    · exact Or.inl ((gradeLE_iff a b).2 h)
    · exact Or.inr ((gradeLE_iff b a).2 h)
  have hperm : (sortGrades gs).Perm gs := sortBy_perm gradeLE gs
  have hchain : List.Chain' reportLE (sortGrades gs) :=
    (chain'_sortBy gradeLE htot gs).imp (fun a b h => (gradeLE_iff a b).1 h)
  refine ⟨fun _ _ _ => rfl, hperm, hchain, ?_, reportLE_total, ?_⟩
  · haveI : IsTrans GradeRecord (fun a b => a.Class ≤ b.Class) :=
      ⟨fun x y z h1 h2 => le_trans h1 h2⟩
    refine List.chain'_iff_pairwise.1 (hchain.imp ?_)
    intro a b h
    rcases h with h | ⟨h, _⟩
    · exact le_of_lt h
    · exact le_of_eq h
  · intro hnum
    have hmem : ∀ g ∈ sortGrades gs, (atoi? g.SeatNumber).isSome = true :=
      fun g hg => hnum g (hperm.mem_iff.1 hg)
    have hchain2 : List.Chain' (fun a b =>
        a.Class < b.Class ∨ (a.Class = b.Class ∧ seatVal a ≤ seatVal b)) (sortGrades gs) := by
      refine chain'_imp_mem _ hchain ?_
      intro a ha b hb hab
      obtain ⟨x, hx⟩ := Option.isSome_iff_exists.1 (hmem a ha)
      obtain ⟨y, hy⟩ := Option.isSome_iff_exists.1 (hmem b hb)
      rcases hab with h | ⟨h, hs⟩
      · exact Or.inl h
      · refine Or.inr ⟨h, ?_⟩
        rw [hx, hy] at hs
        rw [seatVal, seatVal, hx, hy]
        exact hs
    haveI : IsTrans GradeRecord (fun a b =>
        a.Class < b.Class ∨ (a.Class = b.Class ∧ seatVal a ≤ seatVal b)) := by
      refine ⟨fun x y z h1 h2 => ?_⟩
      rcases h1 with h1 | ⟨e1, s1⟩
      · rcases h2 with h2 | ⟨e2, s2⟩
        · exact Or.inl (lt_trans h1 h2)
        · exact Or.inl (lt_of_lt_of_le h1 (le_of_eq e2))
      · rcases h2 with h2 | ⟨e2, s2⟩
        · exact Or.inl (lt_of_le_of_lt (le_of_eq e1) h2)
        · exact Or.inr ⟨e1.trans e2, le_trans s1 s2⟩
    refine (List.chain'_iff_pairwise.1 hchain2).imp ?_
    intro a b h he
    rcases h with h | ⟨_, hs⟩
    · exact absurd h (by rw [he]; exact lt_irrefl _)
    · exact hs

/-- Closed instance of C3: the two-row sample bucket has all-numeric seat
numbers and its sorted output is numerically non-decreasing within the
class. -/
theorem c3_report_rows_sorted_inst :
    (∀ g ∈ gs3, (atoi? g.SeatNumber).isSome = true)
    ∧ (sortGrades gs3).Pairwise (fun a b => a.Class = b.Class → seatVal a ≤ seatVal b) := by
  have h := c3_report_rows_sorted gs3
  exact ⟨by decide, h.2.2.2.2.2 (by decide)⟩

end GradeFlow
